import Mathlib

/-!
Verification of `scripts/fetch_github_repos.py`.

The script is a sequential batch pipeline: it discovers the public
repositories of a fixed account, reconciles a two-section `include` /
`exclude` configuration file against the discovered catalog, rewrites the
configuration, enriches each included repository (language percentages,
framework detection from the file tree, import- and manifest-based label
resolution) and writes a sorted JSON artifact.

This file gives a shallow embedding of that script.  Pure Python functions
become Lean functions on `String` / `List` / `Finset` / `ℚ`; the
configuration file is represented by its list of lines (each line written
with its trailing newline character, exactly the strings the script passes
to `writelines`; this coincides with the on-disk bytes under Python's
universal-newline reading whenever no written line contains an interior
`'\n'` or `'\r'`, which holds under the well-formed-name hypotheses used
below); remote I/O becomes an explicit oracle value, with
Python exceptions modelled by `Except`.  Floating-point `round(x, 1)` is
modelled by exact rational arithmetic with round-half-to-even, which agrees
with the script on every input considered here.
-/

/-! ### Python string primitives -/

/-- The characters stripped by Python's `str.strip()`: every code point
for which Python's `str.isspace()` is true (ASCII whitespace, the
separator controls U+001C-U+001F, and the Unicode space characters). -/
def isPySpace (c : Char) : Bool :=
  c = ' ' || c = '\t' || c = '\n' || c = '\r' || c = '\x0b' || c = '\x0c' ||
  c = '\x1c' || c = '\x1d' || c = '\x1e' || c = '\x1f' ||
  c = '\x85' || c = '\xa0' || c = '\u1680' ||
  c = '\u2000' || c = '\u2001' || c = '\u2002' || c = '\u2003' || c = '\u2004' ||
  c = '\u2005' || c = '\u2006' || c = '\u2007' || c = '\u2008' || c = '\u2009' ||
  c = '\u200a' || c = '\u2028' || c = '\u2029' || c = '\u202f' || c = '\u205f' ||
  c = '\u3000'

/-- Strip `isPySpace` characters from both ends of a character list. -/
def stripChars (l : List Char) : List Char :=
  ((l.dropWhile isPySpace).reverse.dropWhile isPySpace).reverse

/-- Python `s.strip()`. -/
def pyStrip (s : String) : String := ⟨stripChars s.data⟩

/-- Python `s.startswith(pre)`. -/
def strStartsWith (s pre : String) : Bool := pre.data.isPrefixOf s.data

/-- Python `s.endswith(suf)`. -/
def strEndsWith (s suf : String) : Bool := suf.data.isSuffixOf s.data

/-- Python `s[n:]` (drop the first `n` characters). -/
def strDrop (s : String) (n : Nat) : String := ⟨s.data.drop n⟩

/-- A repository name that survives the config round trip: non-empty, equal
to its own whitespace-stripped form, and containing no newline character —
neither `'\n'` nor `'\r'`, since Python's universal-newline file reading
breaks a line at either. -/
def validName (n : String) : Bool :=
  !(n == "") && (pyStrip n == n) && !(n.data.contains '\n') && !(n.data.contains '\r')

/-- Python's `sorted` on strings: the stable sort by the lexicographic
code-point order (`String`'s linear order). -/
def pySorted (l : List String) : List String := l.insertionSort (· ≤ ·)

/-! ### Config file I/O (`load_config` / `write_config`)

The file is represented by its list of lines; each written line carries its
trailing `'\n'`, exactly as built by the script before `writelines`. -/

/-- Parsing state of `load_config`: the two lists collected so far and the
current section (`some true` = include, `some false` = exclude). -/
structure LoadState where
  inc : List String
  exc : List String
  cur : Option Bool
deriving Repr, DecidableEq

/-- One line of `load_config`'s loop (`stripped` = `line.strip()`). -/
def loadStep (st : LoadState) (line : String) : LoadState :=
  if strStartsWith (pyStrip line) "include:" then { st with cur := some true }
  else if strStartsWith (pyStrip line) "exclude:" then { st with cur := some false }
  else if strStartsWith (pyStrip line) "- " && st.cur.isSome then
    match st.cur with
    | some true => { st with inc := st.inc ++ [pyStrip (strDrop (pyStrip line) 2)] }
    | some false => { st with exc := st.exc ++ [pyStrip (strDrop (pyStrip line) 2)] }
    | none => st
  else if !(pyStrip line == "") && !(strStartsWith (pyStrip line) "#") then { st with cur := none }
  else st

/-- `load_config`: parse the two-section list format, returning
`(include_list, exclude_list)`. -/
def load_config (lines : List String) : List String × List String :=
  let st := lines.foldl loadStep ⟨[], [], none⟩
  (st.inc, st.exc)

/-- One `  - name` entry line as written by `write_config`. -/
def entryLine (n : String) : String := "  - " ++ n ++ "\n"

/-- `write_config`: the exact list of lines the script writes, with the
fixed comment header and each section sorted. -/
def write_config (inc exc : List String) : List String :=
  ["# Repos to show on the site (full tech-stack enrichment fetched for these).\n",
   "# Move a name from `exclude` to `include` to display it.\n",
   "include:\n"]
  ++ (pySorted inc).map entryLine
  ++ ["\n",
      "# Repos discovered but not shown. Move entries to `include` to display them.\n",
      "exclude:\n"]
  ++ (pySorted exc).map entryLine

/-! ### Static label tables

Transcribed verbatim from the script.  A value of `none` is the explicit
suppression marker (Python `None`); absence from the table means the key is
silently ignored. -/

/-- `PYTHON_IMPORT_LABELS`: top-level Python module name to marketable
label, or `none` to suppress. -/
def PYTHON_IMPORT_LABELS : List (String × Option String) :=
  [("sklearn", some "scikit-learn"),
   ("torch", some "PyTorch"),
   ("tensorflow", some "TensorFlow"),
   ("keras", some "Keras"),
   ("xgboost", some "XGBoost"),
   ("lightgbm", some "LightGBM"),
   ("catboost", some "CatBoost"),
   ("transformers", some "Hugging Face"),
   ("diffusers", some "Hugging Face"),
   ("numpy", some "NumPy"),
   ("np", none),
   ("scipy", some "SciPy"),
   ("pandas", some "pandas"),
   ("polars", some "Polars"),
   ("sympy", some "SymPy"),
   ("cv2", some "OpenCV"),
   ("PIL", some "Pillow"),
   ("skimage", some "scikit-image"),
   ("imageio", none),
   ("matplotlib", some "Matplotlib"),
   ("pylab", none),
   ("seaborn", some "Seaborn"),
   ("plotly", some "Plotly"),
   ("bokeh", some "Bokeh"),
   ("flask", some "Flask"),
   ("fastapi", some "FastAPI"),
   ("django", some "Django"),
   ("aiohttp", some "aiohttp"),
   ("tornado", some "Tornado"),
   ("starlette", some "Starlette"),
   ("sqlalchemy", some "SQLAlchemy"),
   ("pymongo", some "MongoDB"),
   ("redis", some "Redis"),
   ("psycopg2", some "PostgreSQL"),
   ("pymysql", some "MySQL"),
   ("motor", some "MongoDB"),
   ("asyncio", none),
   ("requests", none),
   ("httpx", none),
   ("websockets", some "WebSockets"),
   ("picamera", some "Raspberry Pi Camera"),
   ("RPi", some "Raspberry Pi"),
   ("smbus", none),
   ("serial", none),
   ("pygame", some "Pygame"),
   ("boto3", some "AWS SDK"),
   ("google", none),
   ("azure", some "Azure SDK"),
   ("openai", some "OpenAI SDK"),
   ("anthropic", some "Anthropic SDK"),
   ("selenium", some "Selenium"),
   ("playwright", some "Playwright"),
   ("pytest", none),
   ("os", none),
   ("sys", none),
   ("re", none),
   ("json", none),
   ("math", none),
   ("time", none),
   ("datetime", none),
   ("io", none),
   ("glob", none),
   ("pathlib", none),
   ("pickle", none),
   ("threading", none),
   ("subprocess", none),
   ("logging", none),
   ("typing", none),
   ("collections", none),
   ("itertools", none),
   ("functools", none),
   ("random", none),
   ("copy", none),
   ("abc", none),
   ("tty", none)]

/-- `FRAMEWORK_INDICATORS`: ordered `(pattern, label)` rules; a pattern
starting with `.` matches as a file suffix, otherwise as an exact basename. -/
def FRAMEWORK_INDICATORS : List (String × String) :=
  [("next.config.js", "Next.js"),
   ("next.config.ts", "Next.js"),
   ("next.config.mjs", "Next.js"),
   ("gatsby-config.js", "Gatsby"),
   ("gatsby-config.ts", "Gatsby"),
   ("astro.config.mjs", "Astro"),
   ("astro.config.ts", "Astro"),
   ("svelte.config.js", "Svelte"),
   ("vue.config.js", "Vue"),
   ("angular.json", "Angular"),
   ("vite.config.js", "Vite"),
   ("vite.config.ts", "Vite"),
   ("pom.xml", "Maven"),
   ("build.gradle", "Gradle"),
   ("build.gradle.kts", "Gradle"),
   ("pyproject.toml", "Python"),
   ("Pipfile", "Python"),
   ("requirements.txt", "Python"),
   ("setup.py", "Python"),
   ("Cargo.toml", "Rust"),
   ("go.mod", "Go"),
   ("Gemfile", "Ruby"),
   ("composer.json", "PHP"),
   ("mix.exs", "Elixir"),
   ("pubspec.yaml", "Flutter"),
   ("docker-compose.yml", "Docker Compose"),
   ("docker-compose.yaml", "Docker Compose"),
   ("Dockerfile", "Docker"),
   ("hugo.toml", "Hugo"),
   ("hugo.yaml", "Hugo"),
   ("_config.yml", "Jekyll"),
   (".csproj", ".NET"),
   (".sln", ".NET")]

/-- `NPM_PACKAGE_LABELS`: npm package name to marketable label, or `none`
to suppress. -/
def NPM_PACKAGE_LABELS : List (String × Option String) :=
  [("react", some "React"),
   ("react-dom", none),
   ("react-native", some "React Native"),
   ("next", some "Next.js"),
   ("nuxt", some "Nuxt"),
   ("vue", some "Vue"),
   ("@angular/core", some "Angular"),
   ("svelte", some "Svelte"),
   ("@sveltejs/kit", some "SvelteKit"),
   ("solid-js", some "Solid.js"),
   ("gatsby", some "Gatsby"),
   ("astro", some "Astro"),
   ("remix", some "Remix"),
   ("@remix-run/react", some "Remix"),
   ("redux", some "Redux"),
   ("@reduxjs/toolkit", some "Redux Toolkit"),
   ("zustand", some "Zustand"),
   ("mobx", some "MobX"),
   ("recoil", some "Recoil"),
   ("jotai", some "Jotai"),
   ("@tanstack/react-query", some "React Query"),
   ("react-query", some "React Query"),
   ("swr", some "SWR"),
   ("@mui/material", some "Material UI"),
   ("@material-ui/core", some "Material UI"),
   ("antd", some "Ant Design"),
   ("@chakra-ui/react", some "Chakra UI"),
   ("tailwindcss", some "Tailwind CSS"),
   ("@radix-ui/react-dialog", some "Radix UI"),
   ("shadcn-ui", some "shadcn/ui"),
   ("styled-components", some "styled-components"),
   ("@emotion/react", some "Emotion"),
   ("bootstrap", some "Bootstrap"),
   ("react-bootstrap", some "Bootstrap"),
   ("react-router", some "React Router"),
   ("react-router-dom", some "React Router"),
   ("wouter", some "Wouter"),
   ("vite", some "Vite"),
   ("webpack", some "Webpack"),
   ("esbuild", some "esbuild"),
   ("rollup", some "Rollup"),
   ("parcel", some "Parcel"),
   ("turbo", some "Turborepo"),
   ("express", some "Express"),
   ("fastify", some "Fastify"),
   ("koa", some "Koa"),
   ("hono", some "Hono"),
   ("nestjs", some "NestJS"),
   ("@nestjs/core", some "NestJS"),
   ("hapi", some "Hapi"),
   ("socket.io", some "Socket.IO"),
   ("ws", none),
   ("prisma", some "Prisma"),
   ("@prisma/client", some "Prisma"),
   ("typeorm", some "TypeORM"),
   ("sequelize", some "Sequelize"),
   ("drizzle-orm", some "Drizzle ORM"),
   ("mongoose", some "Mongoose"),
   ("pg", some "PostgreSQL"),
   ("mysql2", some "MySQL"),
   ("better-sqlite3", some "SQLite"),
   ("redis", some "Redis"),
   ("ioredis", some "Redis"),
   ("@supabase/supabase-js", some "Supabase"),
   ("firebase", some "Firebase"),
   ("next-auth", some "NextAuth"),
   ("@auth/core", some "Auth.js"),
   ("passport", some "Passport.js"),
   ("jsonwebtoken", some "JWT"),
   ("jest", some "Jest"),
   ("vitest", some "Vitest"),
   ("@playwright/test", some "Playwright"),
   ("cypress", some "Cypress"),
   ("@testing-library/react", some "Testing Library"),
   ("mocha", some "Mocha"),
   ("chai", none),
   ("graphql", some "GraphQL"),
   ("@apollo/client", some "Apollo Client"),
   ("apollo-server", some "Apollo Server"),
   ("@apollo/server", some "Apollo Server"),
   ("urql", some "urql"),
   ("axios", some "Axios"),
   ("trpc", some "tRPC"),
   ("@trpc/server", some "tRPC"),
   ("openai", some "OpenAI SDK"),
   ("typescript", some "TypeScript"),
   ("zod", some "Zod"),
   ("yup", none),
   ("expo", some "Expo"),
   ("electron", some "Electron"),
   ("tauri", some "Tauri"),
   ("nx", some "Nx"),
   ("lerna", none),
   ("eslint", none),
   ("prettier", none),
   ("husky", none),
   ("lint-staged", none),
   ("rimraf", none),
   ("cross-env", none),
   ("dotenv", none),
   ("concurrently", none),
   ("nodemon", none),
   ("ts-node", none),
   ("tsup", none),
   ("postcss", none),
   ("autoprefixer", none),
   ("classnames", none),
   ("clsx", none),
   ("lodash", none),
   ("date-fns", none),
   ("dayjs", none),
   ("uuid", none),
   ("nanoid", none)]

/-! ### Config reconciliation (steps 3-4 of `main`) -/

/-- Steps 3 and 4 of `main`: add uncategorised catalog names to the exclude
set, then drop from both sets every name no longer in the catalog. -/
def reconcile (allNames inc exc : Finset String) : Finset String × Finset String :=
  let known := inc ∪ exc
  let newRepos := allNames \ known
  let exc1 := exc ∪ newRepos
  let staleInc := inc \ allNames
  let staleExc := exc1 \ allNames
  (inc \ staleInc, exc1 \ staleExc)

/-- Python `sorted` applied to a set of strings: the unique `≤`-sorted
list of the set's elements (computed by insertion sort on any
representative; well defined since `≤` on `String` is antisymmetric). -/
def sortFin (s : Finset String) : List String :=
  Quot.liftOn s.val (fun l => l.insertionSort (· ≤ ·)) fun a b h =>
    List.eq_of_perm_of_sorted
      (((List.perm_insertionSort _ a).trans h).trans (List.perm_insertionSort _ b).symm)
      (List.sorted_insertionSort _ a) (List.sorted_insertionSort _ b)

/-! ### `language_breakdown`

Python's float `round(x, 1)` is modelled by exact rational
round-half-to-even at one decimal. -/

/-- Round to the nearest integer, ties to even (Python `round` semantics). -/
def roundHalfEven (x : ℚ) : ℤ :=
  if x - ⌊x⌋ < 1/2 then ⌊x⌋
  else if 1/2 < x - ⌊x⌋ then ⌊x⌋ + 1
  else if ⌊x⌋ % 2 = 0 then ⌊x⌋ else ⌊x⌋ + 1

/-- Python `round(x, 1)`. -/
def pyRound1 (x : ℚ) : ℚ := (roundHalfEven (10 * x) : ℚ) / 10

/-- `language_breakdown`: byte counts to `(language, percent)` entries,
keeping only entries whose rounded share is at least 1.0; empty when the
total byte count is zero. -/
def language_breakdown (langBytes : List (String × Nat)) : List (String × ℚ) :=
  if (langBytes.map (·.2)).sum = 0 then []
  else
    langBytes.filterMap fun p =>
      if 1 ≤ pyRound1 ((p.2 : ℚ) / (((langBytes.map (·.2)).sum : Nat) : ℚ) * 100) then
        some (p.1, pyRound1 ((p.2 : ℚ) / (((langBytes.map (·.2)).sum : Nat) : ℚ) * 100))
      else none

/-! ### Framework detection (`detect_frameworks`) -/

/-- Split a character list at every `'/'`. -/
def splitOnSlash : List Char → List (List Char)
  | [] => [[]]
  | c :: rest =>
    match splitOnSlash rest with
    | [] => [[]]
    | seg :: segs => if c = '/' then [] :: seg :: segs else (c :: seg) :: segs

/-- Python `pathlib.Path(p).name`: the final path component (empty and `.`
components are dropped; empty when nothing remains). -/
def pathName (p : String) : String :=
  ⟨((splitOnSlash p.data).filter fun seg => !(seg.isEmpty || seg == ['.'])).getLastD []⟩

/-- One indicator's match test: suffix match for patterns starting with
`.`, exact basename match otherwise. -/
def matchesIndicator (filePaths basenames : List String) (indicator : String) : Bool :=
  if strStartsWith indicator "." then filePaths.any fun p => strEndsWith p indicator
  else basenames.contains indicator

/-- The loop of `detect_frameworks` over an indicator table, carrying the
set of labels already seen. -/
def detectFrom (inds : List (String × String)) (filePaths basenames seen : List String) :
    List String :=
  match inds with
  | [] => []
  | (ind, label) :: rest =>
    if seen.contains label then detectFrom rest filePaths basenames seen
    else if matchesIndicator filePaths basenames ind then
      label :: detectFrom rest filePaths basenames (label :: seen)
    else detectFrom rest filePaths basenames seen

/-- `detect_frameworks`: first matching rule per label, in table order. -/
def detect_frameworks (filePaths : List String) : List String :=
  detectFrom FRAMEWORK_INDICATORS filePaths (filePaths.map pathName) []

/-! ### Import- and manifest-based label resolution -/

/-- The shared loop of `extract_python_tech` and `extract_npm_tech`: map
each identifier through the table, skip unknown identifiers and suppressed
labels, and deduplicate by label. -/
def resolveFrom (table : List (String × Option String)) (items seen : List String) :
    List String :=
  match items with
  | [] => []
  | m :: rest =>
    match table.lookup m with
    | none => resolveFrom table rest seen
    | some none => resolveFrom table rest seen
    | some (some label) =>
      if seen.contains label then resolveFrom table rest seen
      else label :: resolveFrom table rest (label :: seen)

/-- `extract_python_tech`: deduplicated marketable labels from a collection
of top-level module names (given in iteration order). -/
def extract_python_tech (importNames : List String) : List String :=
  resolveFrom PYTHON_IMPORT_LABELS importNames []

/-- A parsed `package.json`: the two dependency maps, as `(name, version)`
pairs in declaration order. -/
structure PackageJson where
  dependencies : List (String × String)
  devDependencies : List (String × String)
deriving Repr, DecidableEq

/-- The key sequence of `all_deps` (`dependencies` updated with
`devDependencies`): regular keys first, then the new dev keys. -/
def mergedDeps (pkg : PackageJson) : List String :=
  let regKeys := pkg.dependencies.map (·.1)
  regKeys ++ (pkg.devDependencies.map (·.1)).filter fun k => !regKeys.contains k

/-- `extract_npm_tech`: deduplicated marketable labels from a parsed
manifest; `none` (no manifest / unparseable) yields no labels. -/
def extract_npm_tech (pkgJson : Option PackageJson) : List String :=
  match pkgJson with
  | none => []
  | some pkg => resolveFrom NPM_PACKAGE_LABELS (mergedDeps pkg) []

/-! ### The enrichment pipeline (`main`)

The remote catalog is modelled as a value: one `RemoteRepo` per repository
carries the base metadata together with the results of the per-repo
fetches (language bytes, file tree, root-level import names, manifest).
String fields hold the values after the script's `or ""` coalescing. -/

/-- One repository as seen from the remote catalog, with its per-repo
fetch results. -/
structure RemoteRepo where
  name : String
  archived : Bool
  description : String
  html_url : String
  homepage : String
  language : String
  topics : List String
  stargazers_count : Nat
  license_spdx : String
  has_pages : Bool
  languages : List (String × Nat)
  file_paths : List String
  importNames : List String
  packageJson : Option PackageJson
deriving Repr, DecidableEq

/-- One output record, with the fields the script assembles. -/
structure RepoRecord where
  name : String
  description : String
  html_url : String
  homepage : String
  primary_language : String
  languages : List (String × ℚ)
  frameworks : List String
  topics : List String
  stargazers_count : Nat
  license : String
  has_pages : Bool
deriving Repr, DecidableEq

/-- The label-merging loop of `main`: append each new label not already
present (`existing` is tracked by the accumulating list itself). -/
def mergeLabels (fw extra : List String) : List String :=
  match extra with
  | [] => fw
  | l :: rest => if fw.contains l then mergeLabels fw rest else mergeLabels (fw ++ [l]) rest

/-- The `frameworks` value of one record: tree detection, then the labels
from Python imports when the primary language is Python, then the npm
labels when a `package.json` basename is present. -/
def computeFrameworks (r : RemoteRepo) : List String :=
  let fw := detect_frameworks r.file_paths
  let basenames := r.file_paths.map pathName
  let fw2 := if r.language == "Python" then mergeLabels fw (extract_python_tech r.importNames)
             else fw
  if basenames.contains "package.json" then mergeLabels fw2 (extract_npm_tech r.packageJson)
  else fw2

/-- Assemble one output record from one catalog entry. -/
def buildRecord (r : RemoteRepo) : RepoRecord :=
  { name := r.name
    description := r.description
    html_url := r.html_url
    homepage := r.homepage
    primary_language := r.language
    languages := language_breakdown r.languages
    frameworks := computeFrameworks r
    topics := r.topics
    stargazers_count := r.stargazers_count
    license := r.license_spdx
    has_pages := r.has_pages }

/-- `repo_map` lookup: the Python dict comprehension keeps the last entry
for a duplicated name. -/
def repoLookup (repos : List RemoteRepo) (name : String) : Option RemoteRepo :=
  repos.reverse.find? fun r => r.name == name

/-- Step 6 of `main`: enrich the included names in order, silently skipping
names absent from the catalog snapshot. -/
def buildResults (repos : List RemoteRepo) (names : List String) : List RepoRecord :=
  names.filterMap fun n => (repoLookup repos n).map buildRecord

/-- The output order: descending star count, ties broken by name (the
Python sort key `(-stars, name)`). -/
def recOrder (a b : RepoRecord) : Prop :=
  b.stargazers_count < a.stargazers_count ∨
    (a.stargazers_count = b.stargazers_count ∧ a.name ≤ b.name)

instance : DecidableRel recOrder := fun a b => by unfold recOrder; infer_instance

instance : IsTotal RepoRecord recOrder where
  total a b := by
    rcases Nat.lt_trichotomy a.stargazers_count b.stargazers_count with h | h | h
    · exact Or.inr (Or.inl h)
    · rcases le_total a.name b.name with hn | hn
      · exact Or.inl (Or.inr ⟨h, hn⟩)
      · exact Or.inr (Or.inr ⟨h.symm, hn⟩)
    · exact Or.inl (Or.inl h)

instance : IsTrans RepoRecord recOrder where
  trans a b c hab hbc := by
    rcases hab with h1 | ⟨h1, hn1⟩ <;> rcases hbc with h2 | ⟨h2, hn2⟩
    · exact Or.inl (h2.trans h1)
    · exact Or.inl (h2 ▸ h1)
    · exact Or.inl (by omega)
    · exact Or.inr ⟨h1.trans h2, hn1.trans hn2⟩

/-- The final stable sort of the collected records (Python `list.sort` with
key `(-stars, name)`). -/
def sortResults (rs : List RepoRecord) : List RepoRecord := rs.insertionSort recOrder

/-- One complete run of `main` after a successful discovery: load the
config, reconcile it against the catalog, write the new config, enrich the
included repositories and sort the output.  Returns (written config lines,
output records). -/
def runOnce (repos : List RemoteRepo) (cfgLines : List String) :
    List String × List RepoRecord :=
  (write_config
    (sortFin (reconcile ((repos.map (·.name)).toFinset)
      (load_config cfgLines).1.toFinset (load_config cfgLines).2.toFinset).1)
    (sortFin (reconcile ((repos.map (·.name)).toFinset)
      (load_config cfgLines).1.toFinset (load_config cfgLines).2.toFinset).2),
   sortResults (buildResults repos
    (sortFin (reconcile ((repos.map (·.name)).toFinset)
      (load_config cfgLines).1.toFinset (load_config cfgLines).2.toFinset).1)))

/-! ### Discovery and the failure tiers (`api_get`, `fetch_all_public_repos`) -/

/-- The transport outcome of one API request: a successful JSON response,
an HTTP error status (raised as `urllib.error.HTTPError`), or any other
raised exception (e.g. `URLError`). -/
inductive ApiResult (α : Type) where
  | ok (value : α)
  | httpError (code : Nat)
  | raised
deriving Repr, DecidableEq

/-- `api_get`: HTTP errors are caught, logged and turned into `None`; every
other exception propagates (modelled as `Except.error`). -/
def api_get {α : Type} (r : ApiResult α) : Except Unit (Option α) :=
  match r with
  | .ok v => .ok (some v)
  | .httpError _ => .ok none
  | .raised => .error ()

/-- The pagination loop of `fetch_all_public_repos`: stop on a falsy batch
(`None` or empty) or on a short page, otherwise accumulate and continue.
The oracle lists the successive page outcomes; an exhausted oracle means
the API keeps answering with empty pages. -/
def fetchPagesAux : List (ApiResult (List RemoteRepo)) → Except Unit (List RemoteRepo)
  | [] => .ok []
  | o :: rest =>
    match api_get o with
    | .error e => .error e
    | .ok none => .ok []
    | .ok (some batch) =>
      if batch.isEmpty then .ok []
      else if batch.length < 100 then .ok batch
      else (fetchPagesAux rest).map fun more => batch ++ more

/-- `fetch_all_public_repos`: paginate, then drop archived repositories. -/
def fetch_all_public_repos (pages : List (ApiResult (List RemoteRepo))) :
    Except Unit (List RemoteRepo) :=
  (fetchPagesAux pages).map fun rs => rs.filter fun r => !r.archived

/-- `main` at the failure-tier level: a raised exception during discovery
propagates (`Except.error`, nothing written); otherwise the run proceeds
and both the config and the output are produced. -/
def runMain (pages : List (ApiResult (List RemoteRepo))) (cfgLines : List String) :
    Except Unit (List String × List RepoRecord) :=
  (fetch_all_public_repos pages).map fun repos => runOnce repos cfgLines

/-! ### Reconciliation lemmas and claims C2, C5 -/

theorem mem_reconcile_fst {cat inc exc : Finset String} {n : String} :
    n ∈ (reconcile cat inc exc).1 ↔ n ∈ inc ∧ n ∈ cat := by
  simp only [reconcile, Finset.mem_sdiff, Finset.mem_union, not_and, not_not]
  tauto

theorem mem_reconcile_snd {cat inc exc : Finset String} {n : String} :
    n ∈ (reconcile cat inc exc).2 ↔ n ∈ cat ∧ (n ∈ exc ∨ n ∉ inc) := by
  simp only [reconcile, Finset.mem_sdiff, Finset.mem_union, not_and, not_not, not_or]
  tauto

/-- C2: reconciliation adds every catalog name not already in include or
exclude to the exclude set, removes from both sets every name absent from
the catalog, and on catalog `{A, B, C}` with prior include `{A}`, exclude
`{D}` yields include `{A}`, exclude `{B, C}`. -/
theorem reconcile_spec (cat inc exc : Finset String) :
    (∀ n ∈ cat, n ∉ inc → n ∉ exc → n ∈ (reconcile cat inc exc).2) ∧
    (∀ n, n ∉ cat → n ∉ (reconcile cat inc exc).1 ∧ n ∉ (reconcile cat inc exc).2) ∧
    reconcile {"A", "B", "C"} {"A"} {"D"} = ({"A"}, {"B", "C"}) := by
  refine ⟨?_, ?_, by decide⟩
  · intro n hc hi _
    exact mem_reconcile_snd.mpr ⟨hc, Or.inr hi⟩
  · intro n hc
    constructor
    · intro h; exact hc (mem_reconcile_fst.mp h).2
    · intro h; exact hc (mem_reconcile_snd.mp h).1

theorem reconcile_spec_witness :
    "B" ∈ (reconcile {"A", "B", "C"} {"A"} {"D"}).2 :=
  (reconcile_spec {"A", "B", "C"} {"A"} {"D"}).1 "B" (by decide) (by decide) (by decide)

/-- C5: starting from disjoint include/exclude sets, after reconciliation
the two sets are disjoint and their union is exactly the current catalog
(every observed name is in exactly one set, names no longer present are in
neither). -/
theorem reconcile_partition (cat inc exc : Finset String) (hd : Disjoint inc exc) :
    Disjoint (reconcile cat inc exc).1 (reconcile cat inc exc).2 ∧
    (reconcile cat inc exc).1 ∪ (reconcile cat inc exc).2 = cat := by
  constructor
  · rw [Finset.disjoint_left]
    intro n h1 h2
    rw [mem_reconcile_fst] at h1
    rw [mem_reconcile_snd] at h2
    rcases h2.2 with he | hni
    · exact Finset.disjoint_left.mp hd h1.1 he
    · exact hni h1.1
  · ext n
    simp only [Finset.mem_union, mem_reconcile_fst, mem_reconcile_snd]
    tauto

theorem reconcile_partition_witness :
    Disjoint (reconcile {"A", "B", "C"} {"A"} {"D"}).1 (reconcile {"A", "B", "C"} {"A"} {"D"}).2 ∧
    (reconcile {"A", "B", "C"} {"A"} {"D"}).1 ∪ (reconcile {"A", "B", "C"} {"A"} {"D"}).2 =
      {"A", "B", "C"} :=
  reconcile_partition {"A", "B", "C"} {"A"} {"D"} (by decide)


/-! ### Rounding lemmas and claim C4 -/

theorem roundHalfEven_le (x : ℚ) : (roundHalfEven x : ℚ) ≤ x + 1/2 := by
  have hfl := Int.floor_le x
  unfold roundHalfEven
  split_ifs with h1 h2 h3
  · linarith
  · push_cast
    linarith
  · linarith
  · push_cast
    have heq : x - (⌊x⌋ : ℚ) = 1/2 := le_antisymm (not_lt.mp h2) (not_lt.mp h1)
    linarith

theorem pyRound1_le (x : ℚ) : pyRound1 x ≤ x + 1/20 := by
  unfold pyRound1
  have h := roundHalfEven_le (10 * x)
  linarith

theorem breakdown_sum_le (T : ℚ) (hT : 0 ≤ T) (l : List (String × Nat)) :
    (((l.filterMap fun p =>
        if 1 ≤ pyRound1 ((p.2 : ℚ) / T * 100) then
          some (p.1, pyRound1 ((p.2 : ℚ) / T * 100))
        else none)).map (·.2)).sum ≤
      (l.map fun p => (p.2 : ℚ) / T * 100).sum +
      (((l.filterMap fun p =>
          if 1 ≤ pyRound1 ((p.2 : ℚ) / T * 100) then
            some (p.1, pyRound1 ((p.2 : ℚ) / T * 100))
          else none)).length : ℚ) / 20 := by
  induction l with
  | nil => simp
  | cons p rest ih =>
    have htp : (0 : ℚ) ≤ (p.2 : ℚ) / T * 100 := by positivity
    simp only [List.filterMap_cons, List.map_cons, List.sum_cons]
    split_ifs with h
    · simp only [List.map_cons, List.sum_cons, List.length_cons]
      push_cast
      have hr := pyRound1_le ((p.2 : ℚ) / T * 100)
      linarith
    · linarith

theorem truePct_sum (T : ℚ) (l : List (String × Nat)) :
    (l.map fun p => (p.2 : ℚ) / T * 100).sum = (((l.map (·.2)).sum : Nat) : ℚ) / T * 100 := by
  induction l with
  | nil => simp
  | cons p rest ih =>
    simp only [List.map_cons, List.sum_cons, ih]
    push_cast
    ring

/-- C4, amended: the percentage breakdown is empty when the total byte
count is zero, every emitted entry has a rounded share of at least 1.0, and
the percentages sum to at most 100 plus 0.05 per emitted entry (rounding
can push the sum above 100, so the bound 100 itself does not hold). -/
theorem language_breakdown_spec (langBytes : List (String × Nat)) :
    ((langBytes.map (·.2)).sum = 0 → language_breakdown langBytes = []) ∧
    (∀ e ∈ language_breakdown langBytes, 1 ≤ e.2) ∧
    ((language_breakdown langBytes).map (·.2)).sum ≤
      100 + ((language_breakdown langBytes).length : ℚ) / 20 := by
  refine ⟨fun h => by simp [language_breakdown, h], ?_, ?_⟩
  · intro e he
    unfold language_breakdown at he
    split_ifs at he with hT
    · simp at he
    · obtain ⟨p, _, heq⟩ := List.mem_filterMap.mp he
      split_ifs at heq with h1
      cases heq
      exact h1
  · by_cases hT : (langBytes.map (·.2)).sum = 0
    · simp [language_breakdown, hT]
    · have hbd : language_breakdown langBytes = langBytes.filterMap fun p =>
          if 1 ≤ pyRound1 ((p.2 : ℚ) / (((langBytes.map (·.2)).sum : Nat) : ℚ) * 100) then
            some (p.1, pyRound1 ((p.2 : ℚ) / (((langBytes.map (·.2)).sum : Nat) : ℚ) * 100))
          else none := by
        unfold language_breakdown
        rw [if_neg hT]
      have hTpos : (0 : ℚ) ≤ (((langBytes.map (·.2)).sum : Nat) : ℚ) := by positivity
      have hsum := breakdown_sum_le ((((langBytes.map (·.2)).sum : Nat)) : ℚ) hTpos langBytes
      rw [truePct_sum] at hsum
      have hne : ((((langBytes.map (·.2)).sum : Nat)) : ℚ) ≠ 0 := by
        exact_mod_cast hT
      rw [div_self hne, one_mul] at hsum
      rw [hbd]
      exact hsum

theorem language_breakdown_spec_witness :
    language_breakdown [("X", 0)] = [] ∧
    ((language_breakdown [("Python", 997), ("Shell", 3)]).map (·.2)).sum ≤
      100 + ((language_breakdown [("Python", 997), ("Shell", 3)]).length : ℚ) / 20 :=
  ⟨(language_breakdown_spec [("X", 0)]).1 rfl,
   (language_breakdown_spec [("Python", 997), ("Shell", 3)]).2.2⟩

theorem pyRound1_one_seventh : pyRound1 (100 / 7 : ℚ) = 143 / 10 := by
  have h10 : (10 : ℚ) * (100 / 7) = 1000 / 7 := by norm_num
  have hf : ⌊(1000 / 7 : ℚ)⌋ = 142 := by
    rw [Int.floor_eq_iff]
    norm_num
  unfold pyRound1 roundHalfEven
  rw [h10, hf]
  rw [if_neg (by push_cast; norm_num), if_pos (by push_cast; norm_num)]
  push_cast
  norm_num

/-- C4, counterexample to the claim as stated: for seven languages of one
byte each every share rounds up to 14.3, and the emitted percentages sum to
100.1 > 100. -/
theorem language_breakdown_sum_can_exceed_100 :
    ¬ (((language_breakdown
        [("L1", 1), ("L2", 1), ("L3", 1), ("L4", 1), ("L5", 1), ("L6", 1), ("L7", 1)]).map
          (·.2)).sum ≤ 100) := by
  have hsum : (([("L1", 1), ("L2", 1), ("L3", 1), ("L4", 1), ("L5", 1), ("L6", 1),
      ("L7", (1 : Nat))].map (·.2)).sum) = 7 := rfl
  unfold language_breakdown
  rw [hsum]
  rw [if_neg (by norm_num)]
  simp only [List.filterMap_cons, List.filterMap_nil]
  norm_num [pyRound1_one_seventh]

/-! ### Framework detector lemmas and claim C6 -/

theorem contains_true_of_mem {s : List String} {a : String} (h : a ∈ s) :
    s.contains a = true :=
  List.elem_iff.mpr h

theorem contains_false_of_not_mem {s : List String} {a : String} (h : a ∉ s) :
    s.contains a = false := by
  rw [← Bool.not_eq_true]
  exact fun hc => h (List.elem_iff.mp hc)

theorem contains_filter (q : String → Bool) (s : List String) (a : String) :
    (s.filter q).contains a = (s.contains a && q a) := by
  by_cases hq : q a = true
  · by_cases hm : a ∈ s
    · rw [contains_true_of_mem (List.mem_filter.mpr ⟨hm, hq⟩), contains_true_of_mem hm, hq]
      rfl
    · rw [contains_false_of_not_mem (fun h => hm (List.mem_filter.mp h).1),
        contains_false_of_not_mem hm, Bool.false_and]
  · have hq2 : q a = false := (Bool.not_eq_true _).mp hq
    rw [contains_false_of_not_mem (fun h => hq (List.mem_filter.mp h).2), hq2, Bool.and_false]

theorem detectFrom_nodup (inds : List (String × String)) (fp bn : List String) :
    ∀ seen : List String, (detectFrom inds fp bn seen).Nodup ∧
      ∀ l ∈ detectFrom inds fp bn seen, l ∉ seen := by
  induction inds with
  | nil =>
    intro seen
    simp [detectFrom]
  | cons e rest ih =>
    intro seen
    obtain ⟨ind, label⟩ := e
    simp only [detectFrom]
    split_ifs with h1 h2
    · exact ih seen
    · obtain ⟨hnd, hdisj⟩ := ih (label :: seen)
      have hlab : label ∉ seen := fun hmem => h1 (List.elem_iff.mpr hmem)
      refine ⟨List.nodup_cons.mpr ⟨fun hmem => hdisj label hmem (List.mem_cons_self _ _), hnd⟩, ?_⟩
      intro l hl
      rcases List.mem_cons.mp hl with rfl | hl'
      · exact hlab
      · exact fun hcon => hdisj l hl' (List.mem_cons_of_mem _ hcon)
    · exact ih seen

theorem detectFrom_filter (q : String → Bool) (inds : List (String × String))
    (fp bn : List String) :
    ∀ seen : List String, (detectFrom inds fp bn seen).filter q =
      detectFrom (inds.filter fun e => q e.2) fp bn (seen.filter q) := by
  induction inds with
  | nil =>
    intro seen
    simp [detectFrom]
  | cons e rest ih =>
    intro seen
    obtain ⟨ind, label⟩ := e
    have hcf := contains_filter q seen label
    by_cases hq : q label = true
    · rw [List.filter_cons_of_pos (by simpa using hq)]
      by_cases hs : seen.contains label = true
      · have hs' : (seen.filter q).contains label = true := by
          rw [hcf, hs, hq]
          rfl
        simp only [detectFrom, hs, hs', if_true]
        exact ih seen
      · have hs0 : seen.contains label = false := (Bool.not_eq_true _).mp hs
        have hs' : (seen.filter q).contains label = false := by
          rw [hcf, hs0, Bool.false_and]
        by_cases hm : matchesIndicator fp bn ind = true
        · simp only [detectFrom, hs0, hs', hm, Bool.false_eq_true, if_false, if_true]
          rw [List.filter_cons_of_pos (by simpa using hq), ih (label :: seen),
            List.filter_cons_of_pos (by simpa using hq)]
        · have hm0 : matchesIndicator fp bn ind = false := (Bool.not_eq_true _).mp hm
          simp only [detectFrom, hs0, hs', hm0, Bool.false_eq_true, if_false]
          exact ih seen
    · rw [List.filter_cons_of_neg (by simpa using hq)]
      by_cases hs : seen.contains label = true
      · have hs' : (seen.filter q).contains label = (seen.filter q).contains label := rfl
        simp only [detectFrom, hs, if_true]
        exact ih seen
      · have hs0 : seen.contains label = false := (Bool.not_eq_true _).mp hs
        by_cases hm : matchesIndicator fp bn ind = true
        · simp only [detectFrom, hs0, hm, Bool.false_eq_true, if_false, if_true]
          rw [List.filter_cons_of_neg (by simpa using hq), ih (label :: seen),
            List.filter_cons_of_neg (by simpa using hq)]
        · have hm0 : matchesIndicator fp bn ind = false := (Bool.not_eq_true _).mp hm
          simp only [detectFrom, hs0, hm0, Bool.false_eq_true, if_false]
          exact ih seen

theorem detectFrom_rust_docker (fp bn : List String)
    (hc : bn.contains "Cargo.toml" = true) (hd : bn.contains "Dockerfile" = true) :
    detectFrom [("Cargo.toml", "Rust"), ("Dockerfile", "Docker")] fp bn [] =
      ["Rust", "Docker"] := by
  have h1 : strStartsWith "Cargo.toml" "." = false := rfl
  have h2 : strStartsWith "Dockerfile" "." = false := rfl
  have e1 : ([] : List String).contains "Rust" = false := rfl
  have e2 : (["Rust"] : List String).contains "Docker" = false := rfl
  simp only [detectFrom, matchesIndicator, h1, h2, e1, e2, hc, hd, Bool.false_eq_true,
    if_false, if_true]

/-- C6: the framework detector never repeats a label, and for any file-path
list containing `Cargo.toml` and `Dockerfile` its output restricted to the
labels `Rust` and `Docker` is exactly `[Rust, Docker]`: each occurs exactly
once, in indicator-table order. -/
theorem detect_frameworks_spec (filePaths : List String) :
    (detect_frameworks filePaths).Nodup ∧
    ("Cargo.toml" ∈ filePaths → "Dockerfile" ∈ filePaths →
      (detect_frameworks filePaths).filter (fun l => l == "Rust" || l == "Docker") =
        ["Rust", "Docker"]) := by
  constructor
  · exact (detectFrom_nodup FRAMEWORK_INDICATORS filePaths (filePaths.map pathName) []).1
  · intro h1 h2
    unfold detect_frameworks
    rw [detectFrom_filter]
    have htab : FRAMEWORK_INDICATORS.filter (fun e => e.2 == "Rust" || e.2 == "Docker") =
        [("Cargo.toml", "Rust"), ("Dockerfile", "Docker")] := rfl
    rw [htab, List.filter_nil]
    exact detectFrom_rust_docker filePaths (filePaths.map pathName)
      (contains_true_of_mem (List.mem_map.mpr ⟨"Cargo.toml", h1, by decide⟩))
      (contains_true_of_mem (List.mem_map.mpr ⟨"Dockerfile", h2, by decide⟩))

theorem detect_frameworks_spec_witness :
    (detect_frameworks ["Cargo.toml", "Dockerfile", "src/main.rs"]).filter
      (fun l => l == "Rust" || l == "Docker") = ["Rust", "Docker"] :=
  (detect_frameworks_spec ["Cargo.toml", "Dockerfile", "src/main.rs"]).2
    (by decide) (by decide)

/-! ### Label resolver lemmas and claims C8, C9 -/

theorem resolveFrom_nodup (table : List (String × Option String)) (items : List String) :
    ∀ seen : List String, (resolveFrom table items seen).Nodup ∧
      ∀ l ∈ resolveFrom table items seen, l ∉ seen := by
  induction items with
  | nil =>
    intro seen
    simp [resolveFrom]
  | cons m rest ih =>
    intro seen
    cases htab : table.lookup m with
    | none =>
      simp only [resolveFrom, htab]
      exact ih seen
    | some o =>
      cases o with
      | none =>
        simp only [resolveFrom, htab]
        exact ih seen
      | some label =>
        simp only [resolveFrom, htab]
        split_ifs with h1
        · exact ih seen
        · obtain ⟨hnd, hdisj⟩ := ih (label :: seen)
          have hlab : label ∉ seen := fun hmem => h1 (contains_true_of_mem hmem)
          refine ⟨List.nodup_cons.mpr
            ⟨fun hmem => hdisj label hmem (List.mem_cons_self _ _), hnd⟩, ?_⟩
          intro l hl
          rcases List.mem_cons.mp hl with rfl | hl'
          · exact hlab
          · exact fun hcon => hdisj l hl' (List.mem_cons_of_mem _ hcon)

theorem mem_resolveFrom (table : List (String × Option String)) (m label : String)
    (items : List String) : ∀ seen : List String,
    m ∈ items → table.lookup m = some (some label) → label ∉ seen →
    label ∈ resolveFrom table items seen := by
  induction items with
  | nil =>
    intro seen hm
    cases hm
  | cons x rest ih =>
    intro seen hm hlk hns
    rcases List.mem_cons.mp hm with rfl | hm'
    · simp only [resolveFrom, hlk]
      split_ifs with h1
      · exact absurd (List.elem_iff.mp h1) hns
      · exact List.mem_cons_self _ _
    · cases hx : table.lookup x with
      | none =>
        simp only [resolveFrom, hx]
        exact ih seen hm' hlk hns
      | some o =>
        cases o with
        | none =>
          simp only [resolveFrom, hx]
          exact ih seen hm' hlk hns
        | some l2 =>
          simp only [resolveFrom, hx]
          split_ifs with h1
          · exact ih seen hm' hlk hns
          · by_cases hll : l2 = label
            · subst hll
              exact List.mem_cons_self _ _
            · refine List.mem_cons_of_mem _ (ih (l2 :: seen) hm' hlk ?_)
              intro hcon
              rcases List.mem_cons.mp hcon with h | h
              · exact hll h.symm
              · exact hns h

theorem resolve_numpy (mods : List String) : ∀ seen : List String,
    (∀ m ∈ mods, m = "numpy" ∨ m = "np" ∨ m = "os") →
    resolveFrom PYTHON_IMPORT_LABELS mods seen =
      if mods.contains "numpy" && !(seen.contains "NumPy") then ["NumPy"] else [] := by
  induction mods with
  | nil =>
    intro seen _
    simp [resolveFrom]
  | cons m rest ih =>
    intro seen hall
    have hrest : ∀ x ∈ rest, x = "numpy" ∨ x = "np" ∨ x = "os" :=
      fun x hx => hall x (List.mem_cons_of_mem _ hx)
    rcases hall m (List.mem_cons_self _ _) with rfl | rfl | rfl
    · have hlk : PYTHON_IMPORT_LABELS.lookup "numpy" = some (some "NumPy") := rfl
      have hcc : ("numpy" :: rest).contains "numpy" = true :=
        contains_true_of_mem (List.mem_cons_self _ _)
      simp only [resolveFrom, hlk]
      by_cases h1 : seen.contains "NumPy" = true
      · rw [if_pos h1, ih seen hrest, hcc, h1]
        simp
      · have h1' : seen.contains "NumPy" = false := (Bool.not_eq_true _).mp h1
        have h2 : ("NumPy" :: seen).contains "NumPy" = true :=
          contains_true_of_mem (List.mem_cons_self _ _)
        rw [if_neg h1, ih ("NumPy" :: seen) hrest, h2, hcc, h1']
        simp
    · have hlk : PYTHON_IMPORT_LABELS.lookup "np" = some none := rfl
      simp only [resolveFrom, hlk]
      rw [ih seen hrest]
      have hne : ("np" :: rest).contains "numpy" = rest.contains "numpy" := by
        cases hr : rest.contains "numpy" with
        | true => exact contains_true_of_mem (List.mem_cons_of_mem _ (List.elem_iff.mp hr))
        | false =>
          refine contains_false_of_not_mem fun hmem => ?_
          rcases List.mem_cons.mp hmem with h | h
          · exact absurd h (by decide)
          · rw [contains_true_of_mem h] at hr
            cases hr
      rw [hne]
    · have hlk : PYTHON_IMPORT_LABELS.lookup "os" = some none := rfl
      simp only [resolveFrom, hlk]
      rw [ih seen hrest]
      have hne : ("os" :: rest).contains "numpy" = rest.contains "numpy" := by
        cases hr : rest.contains "numpy" with
        | true => exact contains_true_of_mem (List.mem_cons_of_mem _ (List.elem_iff.mp hr))
        | false =>
          refine contains_false_of_not_mem fun hmem => ?_
          rcases List.mem_cons.mp hmem with h | h
          · exact absurd h (by decide)
          · rw [contains_true_of_mem h] at hr
            cases hr
      rw [hne]

/-- C8: the import-label resolver never repeats a label, and on any
collection of module names drawn from `{numpy, np, os}` that contains
`numpy` it returns exactly `["NumPy"]` — the suppressed alias `np` and the
suppressed stdlib module `os` are dropped. -/
theorem extract_python_tech_spec (mods : List String) :
    (extract_python_tech mods).Nodup ∧
    ((∀ m ∈ mods, m = "numpy" ∨ m = "np" ∨ m = "os") → "numpy" ∈ mods →
      extract_python_tech mods = ["NumPy"]) := by
  constructor
  · exact (resolveFrom_nodup PYTHON_IMPORT_LABELS mods []).1
  · intro hall hmem
    unfold extract_python_tech
    rw [resolve_numpy mods [] hall]
    rw [contains_true_of_mem hmem]
    simp

theorem extract_python_tech_spec_witness :
    extract_python_tech ["numpy", "np", "os"] = ["NumPy"] :=
  (extract_python_tech_spec ["numpy", "np", "os"]).2 (by decide) (by decide)

/-- C9: the manifest-label resolver never repeats a label, and whenever the
merged dependency map contains both `react` and `react-dom` the label
`React` occurs exactly once in its output. -/
theorem extract_npm_tech_spec (pkg : PackageJson) :
    (extract_npm_tech (some pkg)).Nodup ∧
    ("react" ∈ mergedDeps pkg → "react-dom" ∈ mergedDeps pkg →
      (extract_npm_tech (some pkg)).count "React" = 1) := by
  constructor
  · exact (resolveFrom_nodup NPM_PACKAGE_LABELS (mergedDeps pkg) []).1
  · intro h1 _
    have hlk : NPM_PACKAGE_LABELS.lookup "react" = some (some "React") := rfl
    have hmem : "React" ∈ resolveFrom NPM_PACKAGE_LABELS (mergedDeps pkg) [] :=
      mem_resolveFrom NPM_PACKAGE_LABELS "react" "React" (mergedDeps pkg) [] h1 hlk
        (by simp)
    exact List.count_eq_one_of_mem
      (resolveFrom_nodup NPM_PACKAGE_LABELS (mergedDeps pkg) []).1 hmem

theorem extract_npm_tech_spec_witness :
    (extract_npm_tech (some ⟨[("react", "^18.2.0"), ("react-dom", "^18.2.0")], []⟩)).count
      "React" = 1 :=
  (extract_npm_tech_spec ⟨[("react", "^18.2.0"), ("react-dom", "^18.2.0")], []⟩).2
    (by decide) (by decide)

/-! ### Claim C7: output ordering -/

/-- C7: the final output list is sorted by descending star count with ties
broken alphabetically by name, and is a permutation of the records built
for the reconciled include set. -/
theorem runOnce_output_sorted (repos : List RemoteRepo) (cfgLines : List String) :
    List.Sorted recOrder (runOnce repos cfgLines).2 ∧
    (runOnce repos cfgLines).2.Perm
      (buildResults repos (sortFin (reconcile ((repos.map (·.name)).toFinset)
        (load_config cfgLines).1.toFinset (load_config cfgLines).2.toFinset).1)) :=
  ⟨List.sorted_insertionSort recOrder _, List.perm_insertionSort recOrder _⟩

/-! ### Claim C1: the two failure tiers of discovery -/

/-- C1, amended: a raised (non-HTTP) exception on the first listing request
propagates and aborts the run with neither the configuration file nor the
output artifact produced, while an HTTP error response on the first listing
request is caught by `api_get` and yields an empty catalog — the run then
continues and still writes both files. -/
theorem discovery_failure_spec :
    (∀ (rest : List (ApiResult (List RemoteRepo))) (cfgLines : List String),
      runMain (ApiResult.raised :: rest) cfgLines = Except.error ()) ∧
    (∀ (code : Nat) (rest : List (ApiResult (List RemoteRepo))) (cfgLines : List String),
      runMain (ApiResult.httpError code :: rest) cfgLines = Except.ok (runOnce [] cfgLines)) :=
  ⟨fun _ _ => rfl, fun _ _ _ => rfl⟩

/-- C1, counterexample to the claim as stated: when the initial listing
call fails with HTTP 403, the run does not abort; it completes with an
empty catalog, writing a (header-only) configuration file and an empty
output artifact. -/
theorem discovery_http_error_not_fatal :
    runMain [ApiResult.httpError 403] [] =
      Except.ok
        (["# Repos to show on the site (full tech-stack enrichment fetched for these).\n",
          "# Move a name from `exclude` to `include` to display it.\n",
          "include:\n",
          "\n",
          "# Repos discovered but not shown. Move entries to `include` to display them.\n",
          "exclude:\n"], []) := rfl

/-! ### Config round trip: strip lemmas and claim C10 -/

theorem validName_spec {n : String} (hv : validName n = true) :
    n.data ≠ [] ∧ stripChars n.data = n.data := by
  simp only [validName, Bool.and_eq_true, Bool.not_eq_true', beq_iff_eq,
    beq_eq_false_iff_ne] at hv
  refine ⟨fun hd => hv.1.1.1 ?_, congrArg String.data hv.1.1.2⟩
  cases n
  simp_all

theorem dropWhile_fixpoint {l : List Char} (h : stripChars l = l) :
    l.dropWhile isPySpace = l := by
  have hsub := List.dropWhile_sublist (l := l) isPySpace
  refine hsub.eq_of_length ?_
  have h1 : (stripChars l).length ≤ (l.dropWhile isPySpace).length := by
    unfold stripChars
    rw [List.length_reverse]
    calc ((l.dropWhile isPySpace).reverse.dropWhile isPySpace).length
        ≤ (l.dropWhile isPySpace).reverse.length := (List.dropWhile_sublist _).length_le
      _ = (l.dropWhile isPySpace).length := List.length_reverse _
  have h2 : (l.dropWhile isPySpace).length ≤ l.length := hsub.length_le
  rw [h] at h1
  omega

theorem dropWhile_reverse_fixpoint {l : List Char} (h : stripChars l = l) :
    l.reverse.dropWhile isPySpace = l.reverse := by
  have hd := dropWhile_fixpoint h
  have h2 : stripChars l = (l.reverse.dropWhile isPySpace).reverse := by
    unfold stripChars
    rw [hd]
  rw [h] at h2
  have h3 := congrArg List.reverse h2
  rw [List.reverse_reverse] at h3
  exact h3.symm

theorem head_not_space {c : Char} {t : List Char}
    (h : List.dropWhile isPySpace (c :: t) = c :: t) : isPySpace c = false := by
  by_cases hp : isPySpace c = true
  · rw [List.dropWhile_cons, if_pos hp] at h
    have hlen := congrArg List.length h
    have hle : (List.dropWhile isPySpace t).length ≤ t.length :=
      (List.dropWhile_sublist _).length_le
    simp at hlen
    omega
  · exact (Bool.not_eq_true _).mp hp

theorem strip_entryLine {n : String} (hv : validName n = true) :
    pyStrip (entryLine n) = ⟨'-' :: ' ' :: n.data⟩ := by
  obtain ⟨hne, hfix⟩ := validName_spec hv
  have hdata : (entryLine n).data = ' ' :: ' ' :: '-' :: ' ' :: (n.data ++ ['\n']) := rfl
  unfold pyStrip
  rw [hdata]
  congr 1
  unfold stripChars
  have hfront : List.dropWhile isPySpace (' ' :: ' ' :: '-' :: ' ' :: (n.data ++ ['\n'])) =
      '-' :: ' ' :: (n.data ++ ['\n']) := by
    rw [List.dropWhile_cons, if_pos (by decide), List.dropWhile_cons, if_pos (by decide),
      List.dropWhile_cons, if_neg (by decide)]
  rw [hfront]
  have hrev : ('-' :: ' ' :: (n.data ++ ['\n'])).reverse =
      '\n' :: (n.data.reverse ++ [' ', '-']) := by
    simp
  rw [hrev, List.dropWhile_cons, if_pos (by decide)]
  have hrevfix := dropWhile_reverse_fixpoint hfix
  obtain ⟨c, t, hct⟩ : ∃ c t, n.data.reverse = c :: t := by
    cases hr : n.data.reverse with
    | nil =>
      refine absurd ?_ hne
      have := congrArg List.reverse hr
      simpa using this
    | cons c t => exact ⟨c, t, rfl⟩
  rw [hct] at hrevfix
  have hc : isPySpace c = false := head_not_space hrevfix
  rw [hct]
  rw [List.cons_append]
  rw [List.dropWhile_cons, if_neg (by rw [hc]; exact Bool.false_ne_true)]
  rw [← List.cons_append, ← hct]
  simp

theorem isPrefixOf_cons_of_ne {c c' : Char} (pre l : List Char) (h : (c == c') = false) :
    List.isPrefixOf (c :: pre) (c' :: l) = false := by
  simp [List.isPrefixOf, List.cons_prefix_cons]
  intro heq
  rw [heq] at h
  simp at h

theorem strStartsWith_dash_include (n : String) :
    strStartsWith ⟨'-' :: ' ' :: n.data⟩ "include:" = false := by
  unfold strStartsWith
  show List.isPrefixOf ('i' :: "nclude:".data) ('-' :: ' ' :: n.data) = false
  exact isPrefixOf_cons_of_ne _ _ (by decide)

theorem strStartsWith_dash_exclude (n : String) :
    strStartsWith ⟨'-' :: ' ' :: n.data⟩ "exclude:" = false := by
  unfold strStartsWith
  show List.isPrefixOf ('e' :: "xclude:".data) ('-' :: ' ' :: n.data) = false
  exact isPrefixOf_cons_of_ne _ _ (by decide)

theorem strStartsWith_dash_dash (n : String) :
    strStartsWith ⟨'-' :: ' ' :: n.data⟩ "- " = true := by
  unfold strStartsWith
  show List.isPrefixOf ['-', ' '] ('-' :: ' ' :: n.data) = true
  simp [List.isPrefixOf]

theorem entry_extract {n : String} (hv : validName n = true) :
    pyStrip (strDrop ⟨'-' :: ' ' :: n.data⟩ 2) = n := by
  obtain ⟨_, hfix⟩ := validName_spec hv
  show pyStrip ⟨n.data⟩ = n
  unfold pyStrip
  show (⟨stripChars n.data⟩ : String) = n
  rw [hfix]

theorem loadStep_entry_inc (i e : List String) {n : String} (hv : validName n = true) :
    loadStep ⟨i, e, some true⟩ (entryLine n) = ⟨i ++ [n], e, some true⟩ := by
  unfold loadStep
  rw [strip_entryLine hv, strStartsWith_dash_include, strStartsWith_dash_exclude,
    strStartsWith_dash_dash, entry_extract hv]
  simp

theorem loadStep_entry_exc (i e : List String) {n : String} (hv : validName n = true) :
    loadStep ⟨i, e, some false⟩ (entryLine n) = ⟨i, e ++ [n], some false⟩ := by
  unfold loadStep
  rw [strip_entryLine hv, strStartsWith_dash_include, strStartsWith_dash_exclude,
    strStartsWith_dash_dash, entry_extract hv]
  simp

theorem loadStep_header1 (st : LoadState) :
    loadStep st
      "# Repos to show on the site (full tech-stack enrichment fetched for these).\n" = st := rfl

theorem loadStep_header2 (st : LoadState) :
    loadStep st "# Move a name from `exclude` to `include` to display it.\n" = st := rfl

theorem loadStep_include_line (st : LoadState) :
    loadStep st "include:\n" = { st with cur := some true } := rfl

theorem loadStep_blank (st : LoadState) :
    loadStep st "\n" = st := rfl

theorem loadStep_header3 (st : LoadState) :
    loadStep st "# Repos discovered but not shown. Move entries to `include` to display them.\n" =
      st := rfl

theorem loadStep_exclude_line (st : LoadState) :
    loadStep st "exclude:\n" = { st with cur := some false } := rfl

theorem foldl_entries_inc (names : List String) :
    ∀ i e : List String, (∀ n ∈ names, validName n = true) →
    List.foldl loadStep ⟨i, e, some true⟩ (names.map entryLine) = ⟨i ++ names, e, some true⟩ := by
  induction names with
  | nil =>
    intro i e _
    simp
  | cons n ns ih =>
    intro i e hv
    simp only [List.map_cons, List.foldl_cons]
    rw [loadStep_entry_inc i e (hv n (List.mem_cons_self _ _))]
    rw [ih (i ++ [n]) e fun m hm => hv m (List.mem_cons_of_mem _ hm)]
    simp

theorem foldl_entries_exc (names : List String) :
    ∀ i e : List String, (∀ n ∈ names, validName n = true) →
    List.foldl loadStep ⟨i, e, some false⟩ (names.map entryLine) = ⟨i, e ++ names, some false⟩ := by
  induction names with
  | nil =>
    intro i e _
    simp
  | cons n ns ih =>
    intro i e hv
    simp only [List.map_cons, List.foldl_cons]
    rw [loadStep_entry_exc i e (hv n (List.mem_cons_self _ _))]
    rw [ih i (e ++ [n]) fun m hm => hv m (List.mem_cons_of_mem _ hm)]
    simp

theorem mem_pySorted {l : List String} {a : String} : a ∈ pySorted l ↔ a ∈ l :=
  List.mem_insertionSort _

theorem load_write_round_trip (inc exc : List String)
    (hinc : ∀ n ∈ inc, validName n = true) (hexc : ∀ n ∈ exc, validName n = true) :
    load_config (write_config inc exc) = (pySorted inc, pySorted exc) := by
  unfold load_config write_config
  simp only [List.foldl_append, List.foldl_cons, List.foldl_nil, loadStep_header1,
    loadStep_header2, loadStep_include_line, loadStep_blank, loadStep_header3,
    loadStep_exclude_line]
  rw [foldl_entries_inc (pySorted inc) [] [] fun n hn => hinc n (mem_pySorted.mp hn)]
  simp only [List.nil_append]
  rw [foldl_entries_exc (pySorted exc) (pySorted inc) [] fun n hn => hexc n (mem_pySorted.mp hn)]
  simp

/-- C10: saving a configuration and immediately loading it returns the same
two collections of names, each in Python-sorted order, provided every name
is non-empty, equal to its own stripped form, and newline-free. -/
theorem config_round_trip (inc exc : List String)
    (hinc : ∀ n ∈ inc, validName n = true) (hexc : ∀ n ∈ exc, validName n = true) :
    load_config (write_config inc exc) = (pySorted inc, pySorted exc) :=
  load_write_round_trip inc exc hinc hexc

theorem config_round_trip_witness :
    load_config (write_config ["site", "demo"] ["old-repo"]) =
      (pySorted ["site", "demo"], pySorted ["old-repo"]) :=
  config_round_trip ["site", "demo"] ["old-repo"] (by decide) (by decide)

/-! ### Idempotence lemmas and claim C3 -/

theorem mem_sortFin {s : Finset String} {a : String} : a ∈ sortFin s ↔ a ∈ s := by
  rcases s with ⟨m, hm⟩
  revert hm
  refine Quot.inductionOn m fun l hm => ?_
  show a ∈ l.insertionSort (· ≤ ·) ↔ _
  rw [List.mem_insertionSort]
  simp [Finset.mem_mk]

theorem toFinset_pySorted_sortFin (s : Finset String) :
    (pySorted (sortFin s)).toFinset = s := by
  ext a
  rw [List.mem_toFinset, mem_pySorted, mem_sortFin]

theorem reconcile_idem {cat i e : Finset String} (h1 : i ⊆ cat) (h2 : e ⊆ cat)
    (h3 : cat ⊆ i ∪ e) : reconcile cat i e = (i, e) := by
  have hfst : (reconcile cat i e).1 = i := by
    ext n
    rw [mem_reconcile_fst]
    exact ⟨fun h => h.1, fun h => ⟨h, h1 h⟩⟩
  have hsnd : (reconcile cat i e).2 = e := by
    ext n
    rw [mem_reconcile_snd]
    constructor
    · rintro ⟨hc, he | hni⟩
      · exact he
      · rcases Finset.mem_union.mp (h3 hc) with h | h
        · exact absurd h hni
        · exact h
    · intro he
      exact ⟨h2 he, Or.inl he⟩
  calc reconcile cat i e = ((reconcile cat i e).1, (reconcile cat i e).2) := rfl
    _ = (i, e) := by rw [hfst, hsnd]

theorem runOnce_of_reconciled (repos : List RemoteRepo) (s t : Finset String)
    (hs : ∀ n ∈ s, validName n = true) (ht : ∀ n ∈ t, validName n = true)
    (hsub1 : s ⊆ (repos.map (·.name)).toFinset)
    (hsub2 : t ⊆ (repos.map (·.name)).toFinset)
    (hcov : (repos.map (·.name)).toFinset ⊆ s ∪ t) :
    runOnce repos (write_config (sortFin s) (sortFin t)) =
      (write_config (sortFin s) (sortFin t), sortResults (buildResults repos (sortFin s))) := by
  unfold runOnce
  rw [load_write_round_trip (sortFin s) (sortFin t) (fun n hn => hs n (mem_sortFin.mp hn))
    (fun n hn => ht n (mem_sortFin.mp hn))]
  rw [show ((pySorted (sortFin s), pySorted (sortFin t)).1 : List String) =
    pySorted (sortFin s) from rfl]
  rw [show ((pySorted (sortFin s), pySorted (sortFin t)).2 : List String) =
    pySorted (sortFin t) from rfl]
  rw [toFinset_pySorted_sortFin s, toFinset_pySorted_sortFin t]
  rw [reconcile_idem hsub1 hsub2 hcov]

/-- C3: with an unchanged remote catalog (of well-formed repository names),
running the pipeline a second time, starting from the configuration file
the first run wrote, produces exactly the same configuration file lines and
the same output records. -/
theorem pipeline_idempotent (repos : List RemoteRepo) (cfgLines : List String)
    (hv : ∀ r ∈ repos, validName r.name = true) :
    runOnce repos (runOnce repos cfgLines).1 = runOnce repos cfgLines := by
  have hvcat : ∀ n ∈ (repos.map (·.name)).toFinset, validName n = true := by
    intro n hn
    obtain ⟨r, hr, rfl⟩ := List.mem_map.mp (List.mem_toFinset.mp hn)
    exact hv r hr
  have hsub1 : (reconcile ((repos.map (·.name)).toFinset)
      (load_config cfgLines).1.toFinset (load_config cfgLines).2.toFinset).1 ⊆
      (repos.map (·.name)).toFinset := fun n hn => (mem_reconcile_fst.mp hn).2
  have hsub2 : (reconcile ((repos.map (·.name)).toFinset)
      (load_config cfgLines).1.toFinset (load_config cfgLines).2.toFinset).2 ⊆
      (repos.map (·.name)).toFinset := fun n hn => (mem_reconcile_snd.mp hn).1
  have hcov : (repos.map (·.name)).toFinset ⊆
      (reconcile ((repos.map (·.name)).toFinset)
        (load_config cfgLines).1.toFinset (load_config cfgLines).2.toFinset).1 ∪
      (reconcile ((repos.map (·.name)).toFinset)
        (load_config cfgLines).1.toFinset (load_config cfgLines).2.toFinset).2 := by
    intro n hn
    rw [Finset.mem_union, mem_reconcile_fst, mem_reconcile_snd]
    by_cases hi : n ∈ (load_config cfgLines).1.toFinset
    · exact Or.inl ⟨hi, hn⟩
    · exact Or.inr ⟨hn, Or.inr hi⟩
  exact runOnce_of_reconciled repos _ _
    (fun n hn => hvcat n (hsub1 hn)) (fun n hn => hvcat n (hsub2 hn)) hsub1 hsub2 hcov

theorem pipeline_idempotent_witness :
    runOnce [⟨"site", false, "", "u", "", "Python", [], 1, "", false, [("Python", 10)],
        ["main.py"], ["numpy"], none⟩]
      (runOnce [⟨"site", false, "", "u", "", "Python", [], 1, "", false, [("Python", 10)],
        ["main.py"], ["numpy"], none⟩] []).1 =
    runOnce [⟨"site", false, "", "u", "", "Python", [], 1, "", false, [("Python", 10)],
        ["main.py"], ["numpy"], none⟩] [] :=
  pipeline_idempotent
    [⟨"site", false, "", "u", "", "Python", [], 1, "", false, [("Python", 10)],
        ["main.py"], ["numpy"], none⟩] [] (by decide)
